import Mathlib

/-!
Shallow embedding of `src/main.py` (a coffee-order builder with validation,
pricing and description synthesis), together with theorems settling the
specification claims about it.

Python floats are modelled by `ℚ`: every constant in the catalogs is an exact
decimal, and every subtotal the program can form is a multiple of `1/5`, far
from any binary-rounding boundary, so rational arithmetic coincides with the
float arithmetic the program performs on all values appearing here.
Python exceptions are modelled by an error type; each mutating method becomes
a function from the builder state to `Option CoffeeError × CoffeeOrderBuilder`
whose second component is the state of the object after the call returns or
after the exception propagates (mirroring the mutation order of the source).
-/

/-- Errors raised by the builder.  The source raises `ValueError` with a
distinct message at each site (plus Python's own `KeyError` for a dict
subscript on a missing key); one constructor per site keeps the causes
distinguishable exactly as the messages do. -/
inductive CoffeeError where
  /-- Raised as `ValueError(f"Недопустимая база: {base}")` in `set_base`. -/
  | invalidBase : String → CoffeeError
  /-- Raised as `ValueError(f"Недопустимый размер: {size}")` in `set_size`. -/
  | invalidSize : String → CoffeeError
  /-- Raised as `ValueError(f"Недопустимое молоко: {milk}")` in `set_milk`. -/
  | invalidMilk : String → CoffeeError
  /-- Raised as `ValueError("Превышен лимит сиропов")` in `add_syrup`. -/
  | syrupLimit : CoffeeError
  /-- Raised as `ValueError("Сахар должен быть в диапазоне 0..5")` in `set_sugar`. -/
  | sugarRange : CoffeeError
  /-- Raised as `ValueError("Количество шотов не может быть отрицательным")` in `add_shot`. -/
  | negativeShots : CoffeeError
  /-- Raised as `ValueError("Превышен лимит шотов")` in `add_shot`. -/
  | shotLimit : CoffeeError
  /-- Raised as `ValueError("base обязателен")` in `build`. -/
  | missingBase : CoffeeError
  /-- Raised as `ValueError("size обязателен")` in `build`. -/
  | missingSize : CoffeeError
  /-- Python `KeyError` on subscripting a dict with a missing key. -/
  | keyError : String → CoffeeError
  deriving DecidableEq, Repr

/-- The immutable order produced by `build` (the frozen dataclass
`CoffeeOrder` of the source). -/
structure CoffeeOrder where
  base : String
  size : String
  milk : String
  syrups : List String
  sugar : ℤ
  iced : Bool
  price : ℚ
  description : String
  extra_shots : ℤ
  deriving DecidableEq, Repr

/-- The mutable builder state: fields of `CoffeeOrderBuilder.__init__`. -/
structure CoffeeOrderBuilder where
  base : Option String
  size : Option String
  milk : String
  syrups : List String
  sugar : ℤ
  iced : Bool
  shots : ℤ
  deriving DecidableEq, Repr

/-- Python dict lookup on an association list (`d[k]` / `k in d`). -/
def lookupQ : List (String × ℚ) → String → Option ℚ
  | [], _ => none
  | (k, v) :: rest, key => if key = k then some v else lookupQ rest key

/-- Embeds `CoffeeOrderBuilder.BASE_PRICES`. -/
def BASE_PRICES : List (String × ℚ) :=
  [("espresso", 200), ("americano", 250), ("latte", 300), ("cappuccino", 320)]

/-- Embeds `CoffeeOrderBuilder.SIZE_MULTIPLIERS`. -/
def SIZE_MULTIPLIERS : List (String × ℚ) :=
  [("small", 1), ("medium", 6/5), ("large", 7/5)]

/-- Embeds `CoffeeOrderBuilder.MILK_SURCHARGES`. -/
def MILK_SURCHARGES : List (String × ℚ) :=
  [("none", 0), ("whole", 30), ("skim", 30), ("oat", 60), ("soy", 50)]

/-- Embeds `CoffeeOrderBuilder.SYRUP_PRICE`. -/
def SYRUP_PRICE : ℚ := 40

/-- Embeds `CoffeeOrderBuilder.SHOT_PRICE`. -/
def SHOT_PRICE : ℚ := 70

/-- Embeds `CoffeeOrderBuilder.ICED_RATE` (0.2). -/
def ICED_RATE : ℚ := 1/5

/-- Embeds `CoffeeOrderBuilder.MAX_SYRUPS`. -/
def MAX_SYRUPS : ℕ := 4

/-- Embeds `CoffeeOrderBuilder.MAX_SUGAR`. -/
def MAX_SUGAR : ℤ := 5

/-- Embeds `CoffeeOrderBuilder.MAX_SHOTS`. -/
def MAX_SHOTS : ℤ := 3

/-- Embeds `CoffeeOrderBuilder.DEFAULT_MILK`. -/
def DEFAULT_MILK : String := "none"

/-- Embeds `CoffeeOrderBuilder.__init__`: the fresh builder. -/
def initBuilder : CoffeeOrderBuilder :=
  { base := none, size := none, milk := DEFAULT_MILK, syrups := [],
    sugar := 0, iced := false, shots := 0 }

/-- Rounding of `q` to the nearest integer, ties to even: the tie-breaking
Python's `round` uses. -/
def roundHalfEven (q : ℚ) : ℤ :=
  let f := ⌊q⌋
  let r := q - f
  if r < 1/2 then f
  else if 1/2 < r then f + 1
  else if f % 2 = 0 then f else f + 1

/-- Python's `round(x, 2)`: round to two decimal places. -/
def round2 (q : ℚ) : ℚ := (roundHalfEven (q * 100) : ℚ) / 100

/-- Embeds `CoffeeOrderBuilder.set_base`.  The pair is (raised error if any, state of
the object after the call). -/
def set_base (b : String) (st : CoffeeOrderBuilder) :
    Option CoffeeError × CoffeeOrderBuilder :=
  if lookupQ BASE_PRICES b = none then (some (.invalidBase b), st)
  else (none, { st with base := some b })

/-- Embeds `CoffeeOrderBuilder.set_size`. -/
def set_size (s : String) (st : CoffeeOrderBuilder) :
    Option CoffeeError × CoffeeOrderBuilder :=
  if lookupQ SIZE_MULTIPLIERS s = none then (some (.invalidSize s), st)
  else (none, { st with size := some s })

/-- Embeds `CoffeeOrderBuilder.set_milk`. -/
def set_milk (m : String) (st : CoffeeOrderBuilder) :
    Option CoffeeError × CoffeeOrderBuilder :=
  if lookupQ MILK_SURCHARGES m = none then (some (.invalidMilk m), st)
  else (none, { st with milk := m })

/-- Embeds `CoffeeOrderBuilder.add_syrup`: duplicate is a silent no-op; the limit is
checked only for a new name; a new name is appended at the end. -/
def add_syrup (name : String) (st : CoffeeOrderBuilder) :
    Option CoffeeError × CoffeeOrderBuilder :=
  if name ∈ st.syrups then (none, st)
  else if MAX_SYRUPS ≤ st.syrups.length then (some .syrupLimit, st)
  else (none, { st with syrups := st.syrups ++ [name] })

/-- Embeds `CoffeeOrderBuilder.set_sugar`. -/
def set_sugar (teaspoons : ℤ) (st : CoffeeOrderBuilder) :
    Option CoffeeError × CoffeeOrderBuilder :=
  if 0 ≤ teaspoons ∧ teaspoons ≤ MAX_SUGAR then (none, { st with sugar := teaspoons })
  else (some .sugarRange, st)

/-- Embeds `CoffeeOrderBuilder.add_shot` (default `count = 1`): accumulates into the
running total after both checks pass. -/
def add_shot (count : ℤ) (st : CoffeeOrderBuilder) :
    Option CoffeeError × CoffeeOrderBuilder :=
  if count < 0 then (some .negativeShots, st)
  else
    let new_total := st.shots + count
    if MAX_SHOTS < new_total then (some .shotLimit, st)
    else (none, { st with shots := new_total })

/-- Embeds `CoffeeOrderBuilder.set_iced` (default `iced = True`). -/
def set_iced (iced : Bool) (st : CoffeeOrderBuilder) :
    Option CoffeeError × CoffeeOrderBuilder :=
  (none, { st with iced := iced })

/-- Embeds `CoffeeOrderBuilder.clear_extras`. -/
def clear_extras (st : CoffeeOrderBuilder) :
    Option CoffeeError × CoffeeOrderBuilder :=
  (none, { st with milk := DEFAULT_MILK, syrups := [], sugar := 0,
                   shots := 0, iced := false })

/-- Embeds `CoffeeOrderBuilder._calc_price`, after its two asserts: `b` and `s` are
the unwrapped base and size.  Dict subscripts may raise `KeyError`. -/
def calc_price (st : CoffeeOrderBuilder) (b s : String) : Except CoffeeError ℚ :=
  match lookupQ BASE_PRICES b with
  | none => .error (.keyError b)
  | some bp =>
    match lookupQ SIZE_MULTIPLIERS s with
    | none => .error (.keyError s)
    | some sm =>
      match lookupQ MILK_SURCHARGES st.milk with
      | none => .error (.keyError st.milk)
      | some mc =>
        let base_cost := bp * sm
        let syrup_cost := (st.syrups.length : ℚ) * SYRUP_PRICE
        let shots_cost := (st.shots : ℚ) * SHOT_PRICE
        let subtotal := base_cost + mc + syrup_cost + shots_cost
        let subtotal := if st.iced then subtotal + base_cost * ICED_RATE else subtotal
        .ok (round2 subtotal)

/-- Embeds `CoffeeOrderBuilder._build_description`, after its two asserts.
`if self._sugar:` and `if self._shots:` are Python truthiness, i.e. `≠ 0`. -/
def build_description (st : CoffeeOrderBuilder) (b s : String) : String :=
  let parts := [s ++ " " ++ b]
  let parts := parts ++ (if st.milk ≠ DEFAULT_MILK then ["with " ++ st.milk ++ " milk"] else [])
  let parts := parts ++
    (if st.syrups ≠ [] then ["+" ++ String.intercalate "," st.syrups ++ " syrup"] else [])
  let parts := parts ++ (if st.iced then ["(iced)"] else [])
  let parts := parts ++ (if st.sugar ≠ 0 then [toString st.sugar ++ " tsp sugar"] else [])
  let parts := parts ++ (if st.shots ≠ 0 then ["+" ++ toString st.shots ++ " extra shot(s)"] else [])
  String.intercalate " " parts

/-- Embeds `CoffeeOrderBuilder.build`: checks base then size, then snapshots the
builder fields into a fresh immutable order. -/
def build (st : CoffeeOrderBuilder) : Except CoffeeError CoffeeOrder :=
  match st.base with
  | none => .error .missingBase
  | some b =>
    match st.size with
    | none => .error .missingSize
    | some s =>
      match calc_price st b s with
      | .error e => .error e
      | .ok price =>
        .ok { base := b, size := s, milk := st.milk, syrups := st.syrups,
              sugar := st.sugar, iced := st.iced, price := price,
              description := build_description st b s,
              extra_shots := st.shots }

/-- The builder's public operations, for quantifying over call sequences. -/
inductive Op where
  | setBase : String → Op
  | setSize : String → Op
  | setMilk : String → Op
  | addSyrup : String → Op
  | setSugar : ℤ → Op
  | addShot : ℤ → Op
  | setIced : Bool → Op
  | clearExtras : Op
  | buildOp : Op
  deriving DecidableEq, Repr

/-- One call: the error raised (if any) and the state of the builder after the
call returns or the exception propagates.  `build` assigns nothing to the
builder, so its post-state is the pre-state. -/
def step (op : Op) (st : CoffeeOrderBuilder) :
    Option CoffeeError × CoffeeOrderBuilder :=
  match op with
  | .setBase b => set_base b st
  | .setSize s => set_size s st
  | .setMilk m => set_milk m st
  | .addSyrup n => add_syrup n st
  | .setSugar n => set_sugar n st
  | .addShot c => add_shot c st
  | .setIced f => set_iced f st
  | .clearExtras => clear_extras st
  | .buildOp =>
    match build st with
    | .error e => (some e, st)
    | .ok _ => (none, st)

/-- The builder state after a sequence of calls (failing calls included: a
failure leaves the object alive in its post-call state). -/
def run (ops : List Op) (st : CoffeeOrderBuilder) : CoffeeOrderBuilder :=
  ops.foldl (fun s op => (step op s).2) st

/-! ### Helper lemmas -/

theorem roundHalfEven_intCast (n : ℤ) : roundHalfEven (n : ℚ) = n := by
  unfold roundHalfEven
  norm_num

theorem round2_eq_self {q : ℚ} {n : ℤ} (h : q * 100 = (n : ℚ)) : round2 q = q := by
  unfold round2
  rw [h, roundHalfEven_intCast, ← h]
  ring

theorem roundHalfEven_nonneg {q : ℚ} (h : 0 ≤ q) : 0 ≤ roundHalfEven q := by
  have hf : (0 : ℤ) ≤ ⌊q⌋ := Int.floor_nonneg.mpr h
  simp only [roundHalfEven]
  split_ifs <;> omega

theorem round2_nonneg {q : ℚ} (h : 0 ≤ q) : 0 ≤ round2 q := by
  have hr : (0 : ℤ) ≤ roundHalfEven (q * 100) :=
    roundHalfEven_nonneg (by positivity)
  have : (0 : ℚ) ≤ (roundHalfEven (q * 100) : ℚ) := by exact_mod_cast hr
  unfold round2
  positivity

theorem base_price_cases {b : String} {bp : ℚ}
    (h : lookupQ BASE_PRICES b = some bp) :
    bp = 200 ∨ bp = 250 ∨ bp = 300 ∨ bp = 320 := by
  simp only [BASE_PRICES, lookupQ] at h
  split_ifs at h <;> simp_all

theorem size_mult_cases {s : String} {sm : ℚ}
    (h : lookupQ SIZE_MULTIPLIERS s = some sm) :
    sm = 1 ∨ sm = 6/5 ∨ sm = 7/5 := by
  simp only [SIZE_MULTIPLIERS, lookupQ] at h
  split_ifs at h <;> simp_all

theorem milk_surcharge_cases {m : String} {mc : ℚ}
    (h : lookupQ MILK_SURCHARGES m = some mc) :
    mc = 0 ∨ mc = 30 ∨ mc = 60 ∨ mc = 50 := by
  simp only [MILK_SURCHARGES, lookupQ] at h
  split_ifs at h <;> simp_all

theorem base_mul_size_int {b s : String} {bp sm : ℚ}
    (hbp : lookupQ BASE_PRICES b = some bp)
    (hsm : lookupQ SIZE_MULTIPLIERS s = some sm) :
    ∃ n : ℤ, bp * sm = (n : ℚ) ∧ 0 < n := by
  rcases base_price_cases hbp with h1 | h1 | h1 | h1 <;>
    rcases size_mult_cases hsm with h2 | h2 | h2 <;>
      subst h1 <;> subst h2 <;>
        first
          | (refine ⟨200, ?_, ?_⟩ <;> norm_num <;> done)
          | (refine ⟨240, ?_, ?_⟩ <;> norm_num <;> done)
          | (refine ⟨280, ?_, ?_⟩ <;> norm_num <;> done)
          | (refine ⟨250, ?_, ?_⟩ <;> norm_num <;> done)
          | (refine ⟨300, ?_, ?_⟩ <;> norm_num <;> done)
          | (refine ⟨350, ?_, ?_⟩ <;> norm_num <;> done)
          | (refine ⟨360, ?_, ?_⟩ <;> norm_num <;> done)
          | (refine ⟨420, ?_, ?_⟩ <;> norm_num <;> done)
          | (refine ⟨320, ?_, ?_⟩ <;> norm_num <;> done)
          | (refine ⟨384, ?_, ?_⟩ <;> norm_num <;> done)
          | (refine ⟨448, ?_, ?_⟩ <;> norm_num <;> done)

theorem milk_surcharge_int {m : String} {mc : ℚ}
    (hmc : lookupQ MILK_SURCHARGES m = some mc) :
    ∃ k : ℤ, mc = (k : ℚ) ∧ 0 ≤ k := by
  rcases milk_surcharge_cases hmc with h | h | h | h <;> subst h <;>
    first
      | (refine ⟨0, ?_, ?_⟩ <;> norm_num <;> done)
      | (refine ⟨30, ?_, ?_⟩ <;> norm_num <;> done)
      | (refine ⟨60, ?_, ?_⟩ <;> norm_num <;> done)
      | (refine ⟨50, ?_, ?_⟩ <;> norm_num <;> done)

/-- Characterization of a successful `build`: the order it returns, with the
price written out as `_calc_price` computes it. -/
theorem build_char (st : CoffeeOrderBuilder) (b s : String) (bp sm mc : ℚ)
    (hb : st.base = some b) (hs : st.size = some s)
    (hbp : lookupQ BASE_PRICES b = some bp)
    (hsm : lookupQ SIZE_MULTIPLIERS s = some sm)
    (hmc : lookupQ MILK_SURCHARGES st.milk = some mc) :
    build st = .ok
      { base := b, size := s, milk := st.milk, syrups := st.syrups,
        sugar := st.sugar, iced := st.iced,
        price := round2 (if st.iced then
            bp * sm + mc + (st.syrups.length : ℚ) * SYRUP_PRICE +
              (st.shots : ℚ) * SHOT_PRICE + bp * sm * ICED_RATE
          else
            bp * sm + mc + (st.syrups.length : ℚ) * SYRUP_PRICE +
              (st.shots : ℚ) * SHOT_PRICE),
        description := build_description st b s,
        extra_shots := st.shots } := by
  simp only [build, calc_price, hb, hs, hbp, hsm, hmc]

/-- A successful `build` snapshots every builder field into the order. -/
theorem build_ok_inv {st : CoffeeOrderBuilder} {o : CoffeeOrder}
    (h : build st = .ok o) :
    st.base = some o.base ∧ st.size = some o.size ∧ o.milk = st.milk ∧
    o.syrups = st.syrups ∧ o.sugar = st.sugar ∧ o.iced = st.iced ∧
    o.extra_shots = st.shots := by
  cases hb : st.base with
  | none => simp [build, hb] at h
  | some b =>
    cases hs : st.size with
    | none => simp [build, hb, hs] at h
    | some s =>
      cases hcp : calc_price st b s with
      | error e => simp [build, hb, hs, hcp] at h
      | ok p =>
        simp only [build, hb, hs, hcp, Except.ok.injEq] at h
        subst h
        simp [hb, hs]

/-! ### Claim theorems -/

/-- The end-to-end example state of the spec: espresso, medium, oat milk,
syrups [vanilla, caramel], sugar 2, one extra shot, iced.  (This is exactly
the state the driver's fluent chain reaches.) -/
def exampleState : CoffeeOrderBuilder :=
  { base := some "espresso", size := some "medium", milk := "oat",
    syrups := ["vanilla", "caramel"], sugar := 2, iced := true, shots := 1 }

/-- C1: with base and size set (and every catalog lookup defined), `build`
succeeds and the price of the returned order is
`round(basePrice·sizeMult + milkSurcharge + 40·|syrups| + 70·shots +
(if iced then 0.20·basePrice·sizeMult else 0), 2)`, the rounding applied
exactly once, to the final subtotal. -/
theorem price_formula (st : CoffeeOrderBuilder) (b s : String) (bp sm mc : ℚ)
    (hb : st.base = some b) (hs : st.size = some s)
    (hbp : lookupQ BASE_PRICES b = some bp)
    (hsm : lookupQ SIZE_MULTIPLIERS s = some sm)
    (hmc : lookupQ MILK_SURCHARGES st.milk = some mc) :
    ∃ o : CoffeeOrder, build st = .ok o ∧
      o.price = round2 (bp * sm + mc + 40 * (st.syrups.length : ℚ) +
        70 * (st.shots : ℚ) + (if st.iced then (1/5) * (bp * sm) else 0)) := by
  refine ⟨_, build_char st b s bp sm mc hb hs hbp hsm hmc, ?_⟩
  simp only [SYRUP_PRICE, SHOT_PRICE, ICED_RATE]
  congr 1
  cases h : st.iced <;> simp <;> ring

/-- Witness for C1: the end-to-end example yields price 498.00. -/
theorem price_formula_witness :
    (build exampleState).toOption.map CoffeeOrder.price = some 498 := by
  obtain ⟨o, ho, hp⟩ :=
    price_formula exampleState "espresso" "medium" 200 (6/5) 60 rfl rfl rfl rfl rfl
  rw [ho]
  simp only [Except.toOption, Option.map_some']
  rw [hp]
  norm_num [exampleState, round2, roundHalfEven]

/-- C2: with base and size set (and every catalog lookup defined), the
description of the built order is the space-joined sequence of clauses in the
fixed order, each omitted when its condition fails: always `"{size} {base}"`;
`"with {milk} milk"` if milk is not the default; the comma-joined
`"+{syrups} syrup"` clause if syrups is non-empty; `"(iced)"` if iced;
`"{sugar} tsp sugar"` if sugar > 0; `"+{shots} extra shot(s)"` if shots > 0
(sugar and shots being non-negative, as every reachable state has them). -/
theorem description_formula (st : CoffeeOrderBuilder) (b s : String) (bp sm mc : ℚ)
    (hb : st.base = some b) (hs : st.size = some s)
    (hbp : lookupQ BASE_PRICES b = some bp)
    (hsm : lookupQ SIZE_MULTIPLIERS s = some sm)
    (hmc : lookupQ MILK_SURCHARGES st.milk = some mc)
    (hsug : 0 ≤ st.sugar) (hsh : 0 ≤ st.shots) :
    ∃ o : CoffeeOrder, build st = .ok o ∧
      o.description = String.intercalate " "
        ([s ++ " " ++ b]
          ++ (if st.milk ≠ "none" then ["with " ++ st.milk ++ " milk"] else [])
          ++ (if st.syrups ≠ [] then
                ["+" ++ String.intercalate "," st.syrups ++ " syrup"] else [])
          ++ (if st.iced then ["(iced)"] else [])
          ++ (if 0 < st.sugar then [toString st.sugar ++ " tsp sugar"] else [])
          ++ (if 0 < st.shots then
                ["+" ++ toString st.shots ++ " extra shot(s)"] else [])) := by
  refine ⟨_, build_char st b s bp sm mc hb hs hbp hsm hmc, ?_⟩
  have h1 : (0 < st.sugar) = (st.sugar ≠ 0) := by
    apply propext; constructor <;> intro h <;> omega
  have h2 : (0 < st.shots) = (st.shots ≠ 0) := by
    apply propext; constructor <;> intro h <;> omega
  simp only [build_description, DEFAULT_MILK, h1, h2]

/-- Witness for C2: the end-to-end example yields exactly the spec's string. -/
theorem description_formula_witness :
    (build exampleState).toOption.map CoffeeOrder.description =
      some ("medium espresso with oat milk +vanilla,caramel syrup (iced)" ++
        " 2 tsp sugar +1 extra shot(s)") := by
  obtain ⟨o, ho, hd⟩ :=
    description_formula exampleState "espresso" "medium" 200 (6/5) 60 rfl rfl rfl
      rfl rfl (by norm_num [exampleState]) (by norm_num [exampleState])
  rw [ho]
  simp only [Except.toOption, Option.map_some']
  rw [hd]
  rfl

/-- The state invariant every reachable builder satisfies: syrups distinct and
at most 4, sugar in [0,5], shots in [0,3], and every set enum field is a key
of its catalog. -/
def ValidState (st : CoffeeOrderBuilder) : Prop :=
  st.syrups.Nodup ∧ st.syrups.length ≤ 4 ∧
  0 ≤ st.sugar ∧ st.sugar ≤ 5 ∧
  0 ≤ st.shots ∧ st.shots ≤ 3 ∧
  (∀ b, st.base = some b → ∃ bp, lookupQ BASE_PRICES b = some bp) ∧
  (∀ s, st.size = some s → ∃ sm, lookupQ SIZE_MULTIPLIERS s = some sm) ∧
  (∃ mc, lookupQ MILK_SURCHARGES st.milk = some mc)

theorem initBuilder_valid : ValidState initBuilder := by
  refine ⟨by simp [initBuilder], by simp [initBuilder], by simp [initBuilder],
    by simp [initBuilder], by simp [initBuilder], by simp [initBuilder],
    ?_, ?_, ⟨0, rfl⟩⟩ <;> intro x hx <;> simp [initBuilder] at hx

theorem step_preserves_valid (op : Op) (st : CoffeeOrderBuilder)
    (h : ValidState st) : ValidState ((step op st).2) := by
  obtain ⟨hnd, hlen, hs0, hs5, hh0, hh3, hbase, hsize, hmilk⟩ := h
  cases op with
  | setBase b =>
    simp only [step, set_base]
    split_ifs with hc
    · exact ⟨hnd, hlen, hs0, hs5, hh0, hh3, hbase, hsize, hmilk⟩
    · obtain ⟨bp, hbp⟩ := Option.ne_none_iff_exists'.mp hc
      exact ⟨hnd, hlen, hs0, hs5, hh0, hh3,
        fun b' hb' => by cases hb'; exact ⟨bp, hbp⟩, hsize, hmilk⟩
  | setSize s =>
    simp only [step, set_size]
    split_ifs with hc
    · exact ⟨hnd, hlen, hs0, hs5, hh0, hh3, hbase, hsize, hmilk⟩
    · obtain ⟨sm, hsm⟩ := Option.ne_none_iff_exists'.mp hc
      exact ⟨hnd, hlen, hs0, hs5, hh0, hh3, hbase,
        fun s' hs' => by cases hs'; exact ⟨sm, hsm⟩, hmilk⟩
  | setMilk m =>
    simp only [step, set_milk]
    split_ifs with hc
    · exact ⟨hnd, hlen, hs0, hs5, hh0, hh3, hbase, hsize, hmilk⟩
    · exact ⟨hnd, hlen, hs0, hs5, hh0, hh3, hbase, hsize,
        Option.ne_none_iff_exists'.mp hc⟩
  | addSyrup n =>
    simp only [step, add_syrup, MAX_SYRUPS]
    split_ifs with h1 h2
    · exact ⟨hnd, hlen, hs0, hs5, hh0, hh3, hbase, hsize, hmilk⟩
    · exact ⟨hnd, hlen, hs0, hs5, hh0, hh3, hbase, hsize, hmilk⟩
    · refine ⟨?_, ?_, hs0, hs5, hh0, hh3, hbase, hsize, hmilk⟩
      · simp [List.nodup_append, hnd, h1]
      · simp only [List.length_append, List.length_singleton]
        omega
  | setSugar n =>
    simp only [step, set_sugar, MAX_SUGAR]
    split_ifs with hc
    · exact ⟨hnd, hlen, hc.1, hc.2, hh0, hh3, hbase, hsize, hmilk⟩
    · exact ⟨hnd, hlen, hs0, hs5, hh0, hh3, hbase, hsize, hmilk⟩
  | addShot c =>
    simp only [step, add_shot, MAX_SHOTS]
    split_ifs with h1 h2
    · exact ⟨hnd, hlen, hs0, hs5, hh0, hh3, hbase, hsize, hmilk⟩
    · exact ⟨hnd, hlen, hs0, hs5, hh0, hh3, hbase, hsize, hmilk⟩
    · refine ⟨hnd, hlen, hs0, hs5, ?_, ?_, hbase, hsize, hmilk⟩
      · show (0 : ℤ) ≤ st.shots + c
        omega
      · show st.shots + c ≤ 3
        omega
  | setIced f =>
    exact ⟨hnd, hlen, hs0, hs5, hh0, hh3, hbase, hsize, hmilk⟩
  | clearExtras =>
    exact ⟨by simp [step, clear_extras], by simp [step, clear_extras],
      by simp [step, clear_extras], by simp [step, clear_extras],
      by simp [step, clear_extras], by simp [step, clear_extras],
      hbase, hsize, ⟨0, rfl⟩⟩
  | buildOp =>
    cases hb : build st <;>
      simp only [step, hb] <;>
        exact ⟨hnd, hlen, hs0, hs5, hh0, hh3, hbase, hsize, hmilk⟩

theorem run_valid_aux (ops : List Op) (st : CoffeeOrderBuilder)
    (h : ValidState st) : ValidState (run ops st) := by
  induction ops generalizing st with
  | nil => exact h
  | cons op rest ih =>
    exact ih ((step op st).2) (step_preserves_valid op st h)

theorem run_valid (ops : List Op) : ValidState (run ops initBuilder) :=
  run_valid_aux ops initBuilder initBuilder_valid

/-- C3: `build` fails with the missing-base cause whenever base is unset; it
fails with a MissingField cause whenever size is unset (the missing-size cause
as soon as base is present); the two causes are distinct; and on every
reachable state with both base and size set, `build` succeeds. -/
theorem build_missing_field :
    (∀ st : CoffeeOrderBuilder, st.base = none →
      build st = .error CoffeeError.missingBase) ∧
    (∀ st : CoffeeOrderBuilder, st.size = none →
      ∃ e, build st = .error e ∧
        (e = CoffeeError.missingBase ∨ e = CoffeeError.missingSize) ∧
        (st.base ≠ none → e = CoffeeError.missingSize)) ∧
    (CoffeeError.missingBase ≠ CoffeeError.missingSize) ∧
    (∀ ops : List Op, (run ops initBuilder).base ≠ none →
      (run ops initBuilder).size ≠ none →
      ∃ o, build (run ops initBuilder) = .ok o) := by
  refine ⟨?_, ?_, by decide, ?_⟩
  · intro st h
    simp [build, h]
  · intro st h
    cases hb : st.base with
    | none =>
      exact ⟨.missingBase, by simp [build, hb], Or.inl rfl,
        fun hc => absurd rfl hc⟩
    | some b =>
      exact ⟨.missingSize, by simp [build, hb, h], Or.inr rfl, fun _ => rfl⟩
  · intro ops h1 h2
    obtain ⟨-, -, -, -, -, -, hbase, hsize, hmilk⟩ := run_valid ops
    obtain ⟨b, hb⟩ := Option.ne_none_iff_exists'.mp h1
    obtain ⟨s, hs⟩ := Option.ne_none_iff_exists'.mp h2
    obtain ⟨bp, hbp⟩ := hbase b hb
    obtain ⟨sm, hsm⟩ := hsize s hs
    obtain ⟨mc, hmc⟩ := hmilk
    exact ⟨_, build_char _ b s bp sm mc hb hs hbp hsm hmc⟩

/-- Witness for C3: the fresh builder fails with the missing-base cause; a
builder with only a size fails with the missing-size cause; after setting
both, `build` succeeds. -/
theorem build_missing_field_witness :
    build initBuilder = .error CoffeeError.missingBase ∧
    (∃ e, build { initBuilder with base := some "latte" } = .error e ∧
      (e = CoffeeError.missingBase ∨ e = CoffeeError.missingSize)) ∧
    (∃ o, build (run [Op.setBase "espresso", Op.setSize "small"] initBuilder)
      = .ok o) := by
  refine ⟨build_missing_field.1 initBuilder rfl, ?_, ?_⟩
  · obtain ⟨e, he, hor, -⟩ :=
      build_missing_field.2.1 { initBuilder with base := some "latte" } rfl
    exact ⟨e, he, hor⟩
  · exact build_missing_field.2.2.2 [Op.setBase "espresso", Op.setSize "small"]
      (by decide) (by decide)

/-- C4: whenever a builder operation fails, the builder state after the call
is exactly the state before it: the failure aborts the call's entire effect
with no partial mutation. -/
theorem failure_no_mutation (op : Op) (st : CoffeeOrderBuilder) (e : CoffeeError)
    (h : (step op st).1 = some e) : (step op st).2 = st := by
  cases op with
  | buildOp =>
    simp only [step]
    cases build st <;> rfl
  | setIced f => simp [step, set_iced] at h
  | clearExtras => simp [step, clear_extras] at h
  | _ =>
    simp only [step, set_base, set_size, set_milk, add_syrup, set_sugar,
      add_shot] at h ⊢ <;>
    split_ifs at h ⊢ <;> simp_all

/-- Witness for C4: a negative shot count fails and leaves the fresh builder
untouched. -/
theorem failure_no_mutation_witness :
    (step (Op.addShot (-1)) initBuilder).1 = some CoffeeError.negativeShots ∧
    (step (Op.addShot (-1)) initBuilder).2 = initBuilder :=
  ⟨rfl, failure_no_mutation (Op.addShot (-1)) initBuilder
    CoffeeError.negativeShots rfl⟩

/-- C5: `build` never changes the builder's own state; a second `build`
without intervening mutation returns an order with exactly the same value;
and because a built order snapshots the builder's fields, any field the
intervening mutation left unchanged in the builder is unchanged in the second
order (only the affected fields — and the prices/descriptions derived from
them — can differ). -/
theorem build_frame :
    (∀ st : CoffeeOrderBuilder, (step Op.buildOp st).2 = st) ∧
    (∀ st : CoffeeOrderBuilder, ∀ o₁ : CoffeeOrder, build st = .ok o₁ →
      build ((step Op.buildOp st).2) = .ok o₁) ∧
    (∀ st st' : CoffeeOrderBuilder, ∀ o o' : CoffeeOrder,
      build st = .ok o → build st' = .ok o' →
      (st.base = st'.base → o.base = o'.base) ∧
      (st.size = st'.size → o.size = o'.size) ∧
      (st.milk = st'.milk → o.milk = o'.milk) ∧
      (st.syrups = st'.syrups → o.syrups = o'.syrups) ∧
      (st.sugar = st'.sugar → o.sugar = o'.sugar) ∧
      (st.iced = st'.iced → o.iced = o'.iced) ∧
      (st.shots = st'.shots → o.extra_shots = o'.extra_shots)) := by
  have hpost : ∀ st : CoffeeOrderBuilder, (step Op.buildOp st).2 = st := by
    intro st
    simp only [step]
    cases build st <;> rfl
  refine ⟨hpost, ?_, ?_⟩
  · intro st o₁ h
    rw [hpost st]
    exact h
  · intro st st' o o' h h'
    obtain ⟨b1, s1, m1, y1, g1, i1, e1⟩ := build_ok_inv h
    obtain ⟨b2, s2, m2, y2, g2, i2, e2⟩ := build_ok_inv h'
    refine ⟨?_, ?_, ?_, ?_, ?_, ?_, ?_⟩
    · intro hh
      exact Option.some.inj (b1.symm.trans (hh.trans b2))
    · intro hh
      exact Option.some.inj (s1.symm.trans (hh.trans s2))
    · intro hh
      rw [m1, m2, hh]
    · intro hh
      rw [y1, y2, hh]
    · intro hh
      rw [g1, g2, hh]
    · intro hh
      rw [i1, i2, hh]
    · intro hh
      rw [e1, e2, hh]

/-- Witness for C5: building the example state twice returns the same order
value, and after mutating only the milk the second order keeps the first
order's base, size, syrups, sugar, iced and shot fields. -/
theorem build_frame_witness :
    (step Op.buildOp exampleState).2 = exampleState ∧
    (∃ o o' : CoffeeOrder, build exampleState = .ok o ∧
      build ((step Op.buildOp exampleState).2) = .ok o ∧
      build { exampleState with milk := "soy" } = .ok o' ∧
      o.base = o'.base ∧ o.size = o'.size ∧ o.syrups = o'.syrups ∧
      o.sugar = o'.sugar ∧ o.iced = o'.iced ∧
      o.extra_shots = o'.extra_shots) := by
  obtain ⟨o, ho⟩ : ∃ o, build exampleState = .ok o := ⟨_, rfl⟩
  obtain ⟨o', ho'⟩ : ∃ o', build { exampleState with milk := "soy" } = .ok o' :=
    ⟨_, rfl⟩
  obtain ⟨f1, f2, -, f4, f5, f6, f7⟩ :=
    (build_frame.2.2 exampleState { exampleState with milk := "soy" } o o' ho ho')
  exact ⟨build_frame.1 exampleState,
    o, o', ho, build_frame.2.1 exampleState o ho, ho',
    f1 rfl, f2 rfl, f4 rfl, f5 rfl, f6 rfl, f7 rfl⟩

/-- C6: `add_syrup` is a successful no-op on a name already present (even at
the 4-syrup limit, the duplicate test coming first); a fresh name fails with
the limit cause when 4 syrups are held; otherwise a fresh name is appended at
the end; and adding the same name twice leaves exactly one occurrence, in its
original insertion position, with no error. -/
theorem add_syrup_spec :
    (∀ st : CoffeeOrderBuilder, ∀ name : String, name ∈ st.syrups →
      add_syrup name st = (none, st)) ∧
    (∀ st : CoffeeOrderBuilder, ∀ name : String, name ∉ st.syrups →
      4 ≤ st.syrups.length → add_syrup name st = (some .syrupLimit, st)) ∧
    (∀ st : CoffeeOrderBuilder, ∀ name : String, name ∉ st.syrups →
      st.syrups.length < 4 →
      add_syrup name st = (none, { st with syrups := st.syrups ++ [name] })) ∧
    (∀ st : CoffeeOrderBuilder, ∀ name : String,
      name ∉ st.syrups → st.syrups.length < 4 →
      (add_syrup name st).1 = none ∧
      (add_syrup name (add_syrup name st).2).1 = none ∧
      (add_syrup name (add_syrup name st).2).2 = (add_syrup name st).2 ∧
      ((add_syrup name st).2).syrups = st.syrups ++ [name] ∧
      ((add_syrup name st).2).syrups.count name = st.syrups.count name + 1) := by
  have h1 : ∀ st : CoffeeOrderBuilder, ∀ name : String, name ∈ st.syrups →
      add_syrup name st = (none, st) := by
    intro st name h
    simp [add_syrup, h]
  have h3 : ∀ st : CoffeeOrderBuilder, ∀ name : String, name ∉ st.syrups →
      st.syrups.length < 4 →
      add_syrup name st = (none, { st with syrups := st.syrups ++ [name] }) := by
    intro st name h hl
    simp only [add_syrup, MAX_SYRUPS]
    rw [if_neg h, if_neg (by omega)]
  refine ⟨h1, ?_, h3, ?_⟩
  · intro st name h hl
    simp only [add_syrup, MAX_SYRUPS]
    rw [if_neg h, if_pos hl]
  · intro st name h hl
    have step1 := h3 st name h hl
    rw [step1]
    have hmem : name ∈ (st.syrups ++ [name]) := by simp
    have step2 := h1 { st with syrups := st.syrups ++ [name] } name hmem
    refine ⟨rfl, ?_, ?_, rfl, ?_⟩
    · rw [step2]
    · rw [step2]
    · simp

/-- Witness for C6: adding "vanilla" twice to the fresh builder succeeds and
yields the syrup list ["vanilla"], containing one occurrence. -/
theorem add_syrup_spec_witness :
    (add_syrup "vanilla" initBuilder).1 = none ∧
    (add_syrup "vanilla" (add_syrup "vanilla" initBuilder).2).1 = none ∧
    ((add_syrup "vanilla" initBuilder).2).syrups = ["vanilla"] ∧
    ((add_syrup "vanilla" initBuilder).2).syrups.count "vanilla" = 1 := by
  obtain ⟨w1, w2, -, w4, w5⟩ :=
    add_syrup_spec.2.2.2 initBuilder "vanilla" (by simp [initBuilder])
      (by simp [initBuilder])
  refine ⟨w1, w2, ?_, ?_⟩
  · rw [w4]
    rfl
  · rw [w5]
    rfl

/-- C7: `add_shot` fails with the invalid-argument cause on a negative count;
fails with the limit cause when the running total plus the count exceeds 3,
leaving the total unchanged; otherwise accumulates the count into the running
total; in particular two default calls (count 1) from zero shots reach 2. -/
theorem add_shot_spec :
    (∀ st : CoffeeOrderBuilder, ∀ c : ℤ, c < 0 →
      add_shot c st = (some .negativeShots, st)) ∧
    (∀ st : CoffeeOrderBuilder, ∀ c : ℤ, 0 ≤ c → 3 < st.shots + c →
      add_shot c st = (some .shotLimit, st)) ∧
    (∀ st : CoffeeOrderBuilder, ∀ c : ℤ, 0 ≤ c → st.shots + c ≤ 3 →
      add_shot c st = (none, { st with shots := st.shots + c })) ∧
    (∀ st : CoffeeOrderBuilder, st.shots = 0 →
      (add_shot 1 st).1 = none ∧
      (add_shot 1 (add_shot 1 st).2).1 = none ∧
      ((add_shot 1 (add_shot 1 st).2).2).shots = 2) := by
  have h3 : ∀ st : CoffeeOrderBuilder, ∀ c : ℤ, 0 ≤ c → st.shots + c ≤ 3 →
      add_shot c st = (none, { st with shots := st.shots + c }) := by
    intro st c hc hle
    simp only [add_shot, MAX_SHOTS]
    rw [if_neg (by omega), if_neg (by omega)]
  refine ⟨?_, ?_, h3, ?_⟩
  · intro st c hc
    simp only [add_shot]
    rw [if_pos hc]
  · intro st c hc hgt
    simp only [add_shot, MAX_SHOTS]
    rw [if_neg (by omega), if_pos (by omega)]
  · intro st h0
    have s1 := h3 st 1 (by omega) (by omega)
    rw [s1]
    have s2 := h3 { st with shots := st.shots + 1 } 1 (by omega)
      (by show st.shots + 1 + 1 ≤ 3; omega)
    rw [s2]
    refine ⟨rfl, rfl, ?_⟩
    show st.shots + 1 + 1 = 2
    omega

/-- Witness for C7: from the fresh builder, two default `add_shot` calls
succeed and reach a running total of 2 shots. -/
theorem add_shot_spec_witness :
    (add_shot 1 initBuilder).1 = none ∧
    (add_shot 1 (add_shot 1 initBuilder).2).1 = none ∧
    ((add_shot 1 (add_shot 1 initBuilder).2).2).shots = 2 :=
  add_shot_spec.2.2.2 initBuilder rfl

/-- C8: every builder state reachable from the fresh builder by any sequence
of (successful or failing) operations has pairwise-distinct syrups of length
at most 4, sugar in [0,5] and shots in [0,3]; consequently every order built
from a reachable state satisfies the same bounds and has a non-negative
price. -/
theorem reachable_invariants :
    (∀ ops : List Op,
      (run ops initBuilder).syrups.Nodup ∧
      (run ops initBuilder).syrups.length ≤ 4 ∧
      0 ≤ (run ops initBuilder).sugar ∧ (run ops initBuilder).sugar ≤ 5 ∧
      0 ≤ (run ops initBuilder).shots ∧ (run ops initBuilder).shots ≤ 3) ∧
    (∀ ops : List Op, ∀ o : CoffeeOrder, build (run ops initBuilder) = .ok o →
      o.syrups.Nodup ∧ o.syrups.length ≤ 4 ∧
      0 ≤ o.sugar ∧ o.sugar ≤ 5 ∧
      0 ≤ o.extra_shots ∧ o.extra_shots ≤ 3 ∧ 0 ≤ o.price) := by
  constructor
  · intro ops
    obtain ⟨hnd, hlen, hs0, hs5, hh0, hh3, -, -, -⟩ := run_valid ops
    exact ⟨hnd, hlen, hs0, hs5, hh0, hh3⟩
  · intro ops o h
    obtain ⟨hnd, hlen, hs0, hs5, hh0, hh3, hbase, hsize, hmilk⟩ := run_valid ops
    obtain ⟨hob, hos, hom, hoy, hog, hoi, hoe⟩ := build_ok_inv h
    obtain ⟨bp, hbp⟩ := hbase o.base hob
    obtain ⟨sm, hsm⟩ := hsize o.size hos
    obtain ⟨mc, hmc⟩ := hmilk
    have hchar := build_char (run ops initBuilder) o.base o.size bp sm mc
      hob hos hbp hsm hmc
    rw [h] at hchar
    have hprice := congrArg CoffeeOrder.price (Except.ok.inj hchar)
    obtain ⟨n, hn, hnpos⟩ := base_mul_size_int hbp hsm
    obtain ⟨k, hk, hknn⟩ := milk_surcharge_int hmc
    have hbs : (0 : ℚ) ≤ bp * sm := by
      rw [hn]
      exact_mod_cast hnpos.le
    have hk0 : (0 : ℚ) ≤ mc := by
      rw [hk]
      exact_mod_cast hknn
    have hlq : (0 : ℚ) ≤ ((run ops initBuilder).syrups.length : ℚ) :=
      Nat.cast_nonneg _
    have hhq : (0 : ℚ) ≤ ((run ops initBuilder).shots : ℚ) := by
      exact_mod_cast hh0
    refine ⟨hoy ▸ hnd, by rw [hoy]; exact hlen, by omega, by omega,
      by omega, by omega, ?_⟩
    rw [hprice]
    apply round2_nonneg
    have c1 : (0 : ℚ) ≤ ((run ops initBuilder).syrups.length : ℚ) * SYRUP_PRICE :=
      mul_nonneg hlq (by norm_num [SYRUP_PRICE])
    have c2 : (0 : ℚ) ≤ ((run ops initBuilder).shots : ℚ) * SHOT_PRICE :=
      mul_nonneg hhq (by norm_num [SHOT_PRICE])
    have c3 : (0 : ℚ) ≤ bp * sm * ICED_RATE :=
      mul_nonneg hbs (by norm_num [ICED_RATE])
    cases hic : (run ops initBuilder).iced <;> simp [hic] <;> linarith

/-- Witness for C8: the order built after setting espresso and small from the
fresh builder has distinct syrups, in-range fields, and non-negative price. -/
theorem reachable_invariants_witness :
    ∃ o : CoffeeOrder,
      build (run [Op.setBase "espresso", Op.setSize "small"] initBuilder)
        = .ok o ∧ o.syrups.Nodup ∧ 0 ≤ o.price := by
  obtain ⟨o, ho⟩ :
      ∃ o, build (run [Op.setBase "espresso", Op.setSize "small"] initBuilder)
        = .ok o := ⟨_, rfl⟩
  obtain ⟨w1, -, -, -, -, -, w7⟩ :=
    reachable_invariants.2 [Op.setBase "espresso", Op.setSize "small"] o ho
  exact ⟨o, ho, w1, w7⟩

/-- Price of a successful build on a non-iced state: the un-surcharged
subtotal, rounded once. -/
theorem build_price_not_iced (st : CoffeeOrderBuilder) (b s : String)
    (bp sm mc : ℚ)
    (hb : st.base = some b) (hs : st.size = some s) (hiced : st.iced = false)
    (hbp : lookupQ BASE_PRICES b = some bp)
    (hsm : lookupQ SIZE_MULTIPLIERS s = some sm)
    (hmc : lookupQ MILK_SURCHARGES st.milk = some mc) :
    ∃ o : CoffeeOrder, build st = .ok o ∧
      o.price = round2 (bp * sm + mc + (st.syrups.length : ℚ) * SYRUP_PRICE +
        (st.shots : ℚ) * SHOT_PRICE) := by
  refine ⟨_, build_char st b s bp sm mc hb hs hbp hsm hmc, ?_⟩
  rw [hiced]
  exact rfl

/-- Price of a successful build with the iced flag forced on: the same
subtotal plus the 20% surcharge on the base cost, rounded once. -/
theorem build_price_iced (st : CoffeeOrderBuilder) (b s : String) (bp sm mc : ℚ)
    (hb : st.base = some b) (hs : st.size = some s)
    (hbp : lookupQ BASE_PRICES b = some bp)
    (hsm : lookupQ SIZE_MULTIPLIERS s = some sm)
    (hmc : lookupQ MILK_SURCHARGES st.milk = some mc) :
    ∃ o : CoffeeOrder, build { st with iced := true } = .ok o ∧
      o.price = round2 (bp * sm + mc + (st.syrups.length : ℚ) * SYRUP_PRICE +
        (st.shots : ℚ) * SHOT_PRICE + bp * sm * ICED_RATE) := by
  refine ⟨_, build_char { st with iced := true } b s bp sm mc hb hs hbp hsm hmc,
    ?_⟩
  rfl

/-- C9: two builder states identical except for the iced flag (base and size
set, catalogs defined) build orders whose prices differ by exactly 20% of
basePrice·sizeMultiplier, the iced price strictly greater. -/
theorem iced_surcharge (st : CoffeeOrderBuilder) (b s : String) (bp sm mc : ℚ)
    (hb : st.base = some b) (hs : st.size = some s) (hiced : st.iced = false)
    (hbp : lookupQ BASE_PRICES b = some bp)
    (hsm : lookupQ SIZE_MULTIPLIERS s = some sm)
    (hmc : lookupQ MILK_SURCHARGES st.milk = some mc) :
    ∃ o₁ o₂ : CoffeeOrder, build st = .ok o₁ ∧
      build { st with iced := true } = .ok o₂ ∧
      o₂.price - o₁.price = (1/5) * (bp * sm) ∧ o₁.price < o₂.price := by
  obtain ⟨n, hn, hnpos⟩ := base_mul_size_int hbp hsm
  obtain ⟨k, hk, hknn⟩ := milk_surcharge_int hmc
  have hpos : (0 : ℚ) < bp * sm := by
    rw [hn]
    exact_mod_cast hnpos
  have hS : round2 (bp * sm + mc + (st.syrups.length : ℚ) * SYRUP_PRICE +
      (st.shots : ℚ) * SHOT_PRICE) =
      bp * sm + mc + (st.syrups.length : ℚ) * SYRUP_PRICE +
      (st.shots : ℚ) * SHOT_PRICE := by
    apply round2_eq_self
      (n := 100 * n + 100 * k + 4000 * (st.syrups.length : ℤ) + 7000 * st.shots)
    simp only [SYRUP_PRICE, SHOT_PRICE]
    rw [hn, hk]
    push_cast
    ring
  have hSi : round2 (bp * sm + mc + (st.syrups.length : ℚ) * SYRUP_PRICE +
      (st.shots : ℚ) * SHOT_PRICE + bp * sm * ICED_RATE) =
      bp * sm + mc + (st.syrups.length : ℚ) * SYRUP_PRICE +
      (st.shots : ℚ) * SHOT_PRICE + bp * sm * ICED_RATE := by
    apply round2_eq_self
      (n := 120 * n + 100 * k + 4000 * (st.syrups.length : ℤ) + 7000 * st.shots)
    simp only [SYRUP_PRICE, SHOT_PRICE, ICED_RATE]
    rw [hn, hk]
    push_cast
    ring
  obtain ⟨o₁, h1, p1⟩ :=
    build_price_not_iced st b s bp sm mc hb hs hiced hbp hsm hmc
  obtain ⟨o₂, h2, p2⟩ := build_price_iced st b s bp sm mc hb hs hbp hsm hmc
  rw [hS] at p1
  rw [hSi] at p2
  refine ⟨o₁, o₂, h1, h2, ?_, ?_⟩
  · rw [p1, p2]
    simp only [ICED_RATE]
    ring
  · rw [p1, p2]
    have hq : (0 : ℚ) < bp * sm * ICED_RATE := by
      simp only [ICED_RATE]
      linarith
    linarith

/-- The concrete pair of states exercised by the C9 witness: espresso, small,
everything else at its defaults. -/
def icedWitnessState : CoffeeOrderBuilder :=
  { initBuilder with base := some "espresso", size := some "small" }

/-- Witness for C9: espresso small, iced versus not, differ by exactly
40 = 20% of 200·1, the iced price strictly greater. -/
theorem iced_surcharge_witness :
    ∃ o₁ o₂ : CoffeeOrder,
      build icedWitnessState = .ok o₁ ∧
      build { icedWitnessState with iced := true } = .ok o₂ ∧
      o₂.price - o₁.price = 40 ∧ o₁.price < o₂.price := by
  obtain ⟨o₁, o₂, h1, h2, h3, h4⟩ :=
    iced_surcharge icedWitnessState "espresso" "small" 200 1 0
      rfl rfl rfl rfl rfl rfl
  refine ⟨o₁, o₂, h1, h2, ?_, h4⟩
  rw [h3]
  norm_num

/-- C10: `add_syrup` performs no catalog validation: for any name whatsoever
(the empty string included) the only possible failure is the syrup-limit
cause, and a name not yet present is appended whenever fewer than 4 syrups
are held. -/
theorem add_syrup_no_catalog_check :
    (∀ st : CoffeeOrderBuilder, ∀ name : String, ∀ e : CoffeeError,
      (add_syrup name st).1 = some e → e = CoffeeError.syrupLimit) ∧
    (∀ st : CoffeeOrderBuilder, ∀ name : String, name ∉ st.syrups →
      st.syrups.length < 4 →
      add_syrup name st = (none, { st with syrups := st.syrups ++ [name] })) := by
  constructor
  · intro st name e h
    simp only [add_syrup, MAX_SYRUPS] at h
    split_ifs at h <;> simp_all
  · intro st name h hl
    simp only [add_syrup, MAX_SYRUPS]
    rw [if_neg h, if_neg (by omega)]

/-- Witness for C10: the empty string, which is in no menu, is accepted and
appended by `add_syrup` on the fresh builder. -/
theorem add_syrup_no_catalog_check_witness :
    add_syrup "" initBuilder = (none, { initBuilder with syrups := [""] }) := by
  have h := add_syrup_no_catalog_check.2 initBuilder ""
    (by simp [initBuilder]) (by simp [initBuilder])
  simpa [initBuilder] using h
